import Mathlib

/-
Verification of the smart-asset-system frontend against its specification.

Shallow embedding of two subsystems:
  * the axios token-refresh / request-retry interceptor
    (frontend/src/api/client.ts, frontend/src/auth/authStore.ts);
  * the focus-and-scroll row-highlighting coordinator
    (frontend/src/pages/Assets.tsx, same logic in Assignments.tsx),
    plus the notifications mark-all-read fallback (App.tsx) and the
    list-envelope unwrapping helper (unwrapList).
JavaScript truthiness is modelled explicitly where the source relies on it
(empty strings and 0 are falsy).
-/

namespace SmartAsset

/-! ## Token store and HTTP model (client.ts / authStore.ts) -/

/-- Credential pair persisted by tokenStore (authStore.ts). -/
structure Tokens where
  access : String
  refresh : String
deriving Repr, DecidableEq

/-- Outcome of an HTTP request at the transport level: success or an HTTP
error status. -/
inductive HttpOutcome where
  | ok
  | httpError (status : Nat)
deriving Repr, DecidableEq

/-- The axios request config as the interceptors see it: the Authorization
header and the idempotency flag (field `_retry` in the source). -/
structure RetryConfig where
  auth : Option String
  retryFlag : Bool
deriving Repr, DecidableEq

/-- JavaScript truthiness of an optional string: undefined, null and the
empty string are falsy. -/
def truthy : Option String → Bool
  | none => false
  | some s => !(s == "")

/-- The configured auth scheme (constant AUTH_SCHEME in client.ts). -/
def AUTH_SCHEME : String := "Bearer"

/-- setAuthHeader from client.ts: write the Authorization header. -/
def setAuthHeader (cfg : RetryConfig) (accessToken : String) : RetryConfig :=
  { cfg with auth := some (AUTH_SCHEME ++ " " ++ accessToken) }

/-- The request interceptor: attach the stored access token when truthy. -/
def attachAuth (store : Option Tokens) (cfg : RetryConfig) : RetryConfig :=
  match store with
  | some tks => if truthy (some tks.access) then setAuthHeader cfg tks.access else cfg
  | none => cfg

/-- Environment fixing the outcomes of the network calls made while one 401
is being handled: the refresh endpoint result (none = the call threw;
some a = it returned a body whose access field is a, possibly absent,
modelled as the empty string) and the outcome of replaying the original
request. -/
structure RefreshEnv where
  refreshOutcome : Option String
  replayOutcome : HttpOutcome

/-- Observable actions performed by the response interceptor. -/
inductive IAction where
  | refreshCall (retryFlagAtCall : Bool)
  | replayRequest
  | navigateLogin
deriving Repr, DecidableEq

/-- Result of handling one response error: what is propagated to the caller,
the final token storage, and the log of observable actions. -/
structure IRun where
  result : HttpOutcome
  store : Option Tokens
  log : List IAction
deriving Repr, DecidableEq

/-- The response interceptor error handler of client.ts.  Recursion depth is
capped by fuel; the retry flag bounds the real depth at two, so the fuel
branch at zero is unreachable from interceptorHandle.  On 401 with the
retry flag unset: mark the config, read the stored refresh token; when it
is truthy call the refresh endpoint; on a truthy new access token store
it (refresh token unchanged), re-attach the header and replay the request
through both interceptors; otherwise clear storage, navigate to login and
reject with the original error.  Everything else is rejected unchanged. -/
def handleResponseError : Nat → RefreshEnv → Option Tokens → RetryConfig → Nat → IRun
  | 0, _, store, _, status => ⟨.httpError status, store, []⟩
  | fuel + 1, env, store, cfg, status =>
    if status = 401 && !cfg.retryFlag then
      let cfg1 := { cfg with retryFlag := true }
      match store with
      | some tks =>
        if truthy (some tks.refresh) then
          -- raw.post "/api/auth/refresh/" happens here (no interceptors on raw)
          match env.refreshOutcome with
          | some newAccess =>
            if truthy (some newAccess) then
              let store1 : Option Tokens := some ⟨newAccess, tks.refresh⟩
              let cfg2 := setAuthHeader cfg1 newAccess
              -- api.request(cfg) re-enters the request interceptor
              let cfg3 := attachAuth store1 cfg2
              let rep : IRun :=
                match env.replayOutcome with
                | .ok => ⟨.ok, store1, []⟩
                | .httpError s => handleResponseError fuel env store1 cfg3 s
              ⟨rep.result, rep.store, .refreshCall cfg1.retryFlag :: .replayRequest :: rep.log⟩
            else
              ⟨.httpError status, none, [.refreshCall cfg1.retryFlag, .navigateLogin]⟩
          | none =>
              ⟨.httpError status, none, [.refreshCall cfg1.retryFlag, .navigateLogin]⟩
        else
          ⟨.httpError status, none, [.navigateLogin]⟩
      | none =>
          ⟨.httpError status, none, [.navigateLogin]⟩
    else
      ⟨.httpError status, store, []⟩

/-- Full handling of one response error, with enough fuel for the
bounded-by-the-retry-flag recursion. -/
def interceptorHandle (env : RefreshEnv) (store : Option Tokens)
    (cfg : RetryConfig) (status : Nat) : IRun :=
  handleResponseError 2 env store cfg status

/-- Recognizer for refresh-endpoint calls in the action log. -/
def isRefreshCall : IAction → Bool
  | .refreshCall _ => true
  | _ => false

/-- Number of refresh-endpoint calls made while handling one error. -/
def refreshCount (r : IRun) : Nat := r.log.countP isRefreshCall

/-! ## JavaScript values and unwrapList (Assets.tsx / Assignments.tsx) -/

/-- A JavaScript value as far as unwrapList can observe it. -/
inductive JsVal where
  | null
  | undefined
  | boolean (b : Bool)
  | number (n : Int)
  | string (s : String)
  | array (elts : List JsVal)
  | object (fields : List (String × JsVal))

/-- Array.isArray. -/
def isArrayVal : JsVal → Bool
  | .array _ => true
  | _ => false

/-- typeof v === "object": true for null, arrays and plain objects. -/
def typeofObject : JsVal → Bool
  | .null => true
  | .array _ => true
  | .object _ => true
  | _ => false

/-- v === null. -/
def isNullVal : JsVal → Bool
  | .null => true
  | _ => false

/-- Property read obj[k]: undefined when the key is absent. -/
def getProp (fields : List (String × JsVal)) (k : String) : JsVal :=
  match fields.find? (fun kv => kv.fst == k) with
  | some kv => kv.snd
  | none => .undefined

/-- unwrapList from Assets.tsx (the identical copy lives in
Assignments.tsx): an array is returned as is; a non-null object whose
results field is an array yields that field; anything else yields the
empty list. -/
def unwrapList (data : JsVal) : List JsVal :=
  match data with
  | .array xs => xs
  | _ =>
    if typeofObject data && !(isNullVal data) then
      match data with
      | .object fields =>
        match getProp fields "results" with
        | .array rs => rs
        | _ => []
      | _ => []
    else []

/-- The case analysis the specification gives for the list-unwrapping
helper, written from the claim wording, to be compared with unwrapList. -/
def unwrapListSpec (data : JsVal) : List JsVal :=
  match data with
  | .array xs => xs
  | .object fields =>
    match getProp fields "results" with
    | .array rs => rs
    | _ => []
  | _ => []

/-! ## Notifications mark-all-read fallback (App.tsx) -/

/-- One notification as the read-state helpers see it (App.tsx
NotificationItem: read_at, is_read and read are all optional). -/
structure NotifItem where
  id : Nat
  read_at : Option String
  is_read : Option Bool
  readFlag : Option Bool
deriving Repr, DecidableEq

/-- isRead from App.tsx: a truthy read_at wins, else the boolean is_read,
else the boolean read, else false. -/
def isRead (n : NotifItem) : Bool :=
  if truthy n.read_at then true
  else
    match n.is_read with
    | some b => b
    | none =>
      match n.readFlag with
      | some b => b
      | none => false

/-- Environment fixing the outcomes of the notification endpoints: whether
the bulk endpoint throws and which individual patches throw. -/
structure NotifEnv where
  bulkFails : Bool
  patchFails : Nat → Bool

/-- JavaScript try/catch over a computation that may throw. -/
def tryCatch {α : Type} (body : Except String α) (handler : String → Except String α) :
    Except String α :=
  match body with
  | .ok v => .ok v
  | .error e => handler e

/-- PATCH /api/notifications/(id)/ with (read := true): throws exactly when
the environment says this patch fails. -/
def patchNotifItem (env : NotifEnv) (id : Nat) : Except String Unit :=
  if env.patchFails id then .error "patch failed" else .ok ()

/-- POST /api/notifications/mark-all-read/: throws exactly when the
environment says the bulk endpoint fails. -/
def postMarkAllRead (env : NotifEnv) : Except String Unit :=
  if env.bulkFails then .error "bulk endpoint error" else .ok ()

/-- The for-of loop in the catch branch of markAllReadMut: patch each item,
swallowing each failure with its own try/catch.  Returns the ids attempted
and the ids whose patch succeeded; an .error result would mean an
exception escaped the loop. -/
def patchEachUnread (env : NotifEnv) : List NotifItem → Except String (List Nat × List Nat)
  | [] => .ok ([], [])
  | n :: rest =>
    match tryCatch
        (match patchNotifItem env n.id with
         | .ok _ => .ok true
         | .error e => .error e)
        (fun _ => .ok false) with
    | .ok ok1 =>
      match patchEachUnread env rest with
      | .ok (att, suc) => .ok (n.id :: att, if ok1 then n.id :: suc else suc)
      | .error e => .error e
    | .error e => .error e

/-- mutationFn of markAllReadMut in App.tsx: try the bulk endpoint; on an
error fall back to patching each currently-unread notification, ignoring
single failures.  Result: ids attempted individually and ids patched
successfully; an .error result would be an exception reaching the caller. -/
def markAllReadRun (env : NotifEnv) (notifications : Option (List NotifItem)) :
    Except String (List Nat × List Nat) :=
  tryCatch
    (match postMarkAllRead env with
     | .ok _ => .ok ([], [])
     | .error e => .error e)
    (fun _ =>
      let list := notifications.getD []
      let unread := list.filter (fun n => !isRead n)
      patchEachUnread env unread)

/-! ## Focus-and-scroll coordinator (Assets.tsx, duplicated in
Assignments.tsx)

The component state, the two effect hooks, and the callbacks they put on
the browser event loop, embedded as an explicit machine.  The filtered row
sequence is a fixed parameter (a list of record ids); `now` is virtual time
in milliseconds; scheduled callbacks carry an absolute due time and the
loop always fires an earliest-due callback, matching the single-threaded
timer queue. -/

/-- Pending focus handle kept in pendingFocusRef. -/
structure Pending where
  id : Nat
  targetPage : Nat
  rowIndexWithinPage : Nat
deriving Repr, DecidableEq

/-- Callbacks the coordinator schedules: the deferred page change, the
deferred scroll-and-highlight (identical bodies in both effects), and the
highlight-expiry timer. -/
inductive FTask where
  | pageChange (target : Nat)
  | arm
  | clearHighlight
deriving Repr, DecidableEq

/-- A scheduled callback: timer id, absolute due time in ms, callback. -/
structure QTask where
  tid : Nat
  due : Nat
  task : FTask
deriving Repr, DecidableEq

/-- Record of one performed scroll-and-highlight, with the pagination state
and time at which it ran. -/
structure ArmEvent where
  id : Nat
  rowIndexWithinPage : Nat
  pageAt : Nat
  pageSizeAt : Nat
  time : Nat
deriving Repr, DecidableEq

/-- A URL-changing navigation request. -/
structure NavAction where
  pathname : String
  search : List (String × String)
  replace : Bool
deriving Repr, DecidableEq

/-- Coordinator state: virtual time, the pagination model, the focus query
parameter, the highlight state, the two refs, the event-loop queue with a
fresh-id counter, and logs of the scrolls/highlights and navigations
performed. -/
structure CState where
  now : Nat
  page : Nat
  pageSize : Nat
  focusId : Option Nat
  highlightId : Option Nat
  pending : Option Pending
  highlightTimer : Option Nat
  queue : List QTask
  nextTid : Nat
  arms : List ArmEvent
  navs : List NavAction
deriving Repr, DecidableEq

/-- Array.prototype.findIndex over the filtered row ids, as an option
instead of the -1 sentinel. -/
def findIndexOfId : List Nat → Nat → Option Nat
  | [], _ => none
  | r :: rest, target =>
    if r = target then some 0 else (findIndexOfId rest target).map (· + 1)

/-- Effective page size: the source reads paginationModel.pageSize falling
back to 10 on a falsy (zero) value. -/
def effPageSize (ps : Nat) : Nat := if ps = 0 then 10 else ps

/-- window.setTimeout: append a callback due after the given delay, with a
fresh timer id. -/
def schedule (s : CState) (t : FTask) (delay : Nat) : CState :=
  { s with queue := s.queue ++ [⟨s.nextTid, s.now + delay, t⟩], nextTid := s.nextTid + 1 }

/-- The focus effect of Assets.tsx: bail out on a falsy focus id, an empty
filtered sequence, or an id not found; otherwise compute the target page
and row offset from the current page size, store the pending handle, and
defer either a page change (wrong page) or the scroll-and-highlight
(right page). -/
def focusEffect (rows : List Nat) (s : CState) : CState :=
  match s.focusId with
  | none => s
  | some f =>
    if f = 0 then s
    else if rows.length = 0 then s
    else
      match findIndexOfId rows f with
      | none => s
      | some idx =>
        let ps := effPageSize s.pageSize
        let targetPage := idx / ps
        let rowIndexWithinPage := idx - targetPage * ps
        let s1 := { s with pending := some ⟨f, targetPage, rowIndexWithinPage⟩ }
        if s1.page ≠ targetPage then schedule s1 (.pageChange targetPage) 0
        else schedule s1 .arm 0

/-- The settle effect of Assets.tsx: when a pending handle matches the page
the grid now reports, defer the scroll-and-highlight. -/
def settleEffect (s : CState) : CState :=
  match s.pending with
  | none => s
  | some p => if p.targetPage ≠ s.page then s else schedule s .arm 0

/-- Body of the deferred scroll-and-highlight callback: read the pending
handle at run time (no-op when it is gone), scroll to its row offset,
set the highlight id, cancel any outstanding expiry timer, start a fresh
4500 ms timer, and destroy the pending handle. -/
def armNow (s : CState) : CState :=
  match s.pending with
  | none => s
  | some p =>
    let s1 := { s with
      arms := s.arms ++ [ArmEvent.mk p.id p.rowIndexWithinPage s.page s.pageSize s.now],
      highlightId := some p.id }
    let s2 :=
      match s1.highlightTimer with
      | some tid => { s1 with queue := s1.queue.filter (fun q => q.tid != tid) }
      | none => s1
    let newTid := s2.nextTid
    let s3 := schedule s2 .clearHighlight 4500
    { s3 with highlightTimer := some newTid, pending := none }

/-- Run one fired callback.  A page change that matches the current page is
dropped by the functional setState; a real page change re-renders, which
re-runs the focus effect (page is among its dependencies) and then the
settle effect (page is its dependency). -/
def runTask (rows : List Nat) (s : CState) (t : FTask) : CState :=
  match t with
  | .pageChange target =>
    if s.page = target then s
    else settleEffect (focusEffect rows { s with page := target })
  | .arm => armNow s
  | .clearHighlight => { s with highlightId := none }

/-- Select an earliest-due callback (first such in insertion order), as the
browser timer queue does. -/
def pickMin : List QTask → Option (QTask × List QTask)
  | [] => none
  | q :: rest =>
    match pickMin rest with
    | none => some (q, [])
    | some (m, rest1) => if q.due ≤ m.due then some (q, rest) else some (m, q :: rest1)

/-- External stimuli: fire the next due callback; change the page size
through the pagination control (re-runs the focus effect, whose
dependencies include the page size); change the focus query parameter
(re-runs the focus effect, whose dependencies include it). -/
inductive FEvent where
  | fire
  | setPageSize (ps : Nat)
  | setFocus (f : Option Nat)
deriving Repr, DecidableEq

/-- One machine step. -/
def stepEv (rows : List Nat) (s : CState) (e : FEvent) : CState :=
  match e with
  | .fire =>
    match pickMin s.queue with
    | none => s
    | some (q, rest) => runTask rows { s with queue := rest, now := max s.now q.due } q.task
  | .setPageSize ps =>
    if s.pageSize = ps then s
    else focusEffect rows { s with pageSize := ps }
  | .setFocus f =>
    if s.focusId = f then s
    else focusEffect rows { s with focusId := f }

/-- Initial render of the page with the given focus query parameter and
pagination model: both effects run once. -/
def mount (rows : List Nat) (f : Option Nat) (page0 ps0 : Nat) : CState :=
  settleEffect (focusEffect rows
    { now := 0, page := page0, pageSize := ps0, focusId := f, highlightId := none,
      pending := none, highlightTimer := none, queue := [], nextTid := 0,
      arms := [], navs := [] })

/-- Run a sequence of stimuli. -/
def execEvs (rows : List Nat) (s : CState) : List FEvent → CState
  | [] => s
  | e :: evs => execEvs rows (stepEv rows s e) evs

/-- Recognizer for highlight-expiry timers in the queue. -/
def isClearTask (q : QTask) : Bool := q.task = .clearHighlight

/-- Bookkeeping invariant for the highlight-expiry timer: at most one expiry
callback is queued, any queued expiry callback is the one highlightTimer
points to, and every queued timer id is below the fresh-id counter. -/
def TimerInv (s : CState) : Prop :=
  s.queue.countP isClearTask ≤ 1 ∧
  (∀ q ∈ s.queue, isClearTask q = true → s.highlightTimer = some q.tid) ∧
  (∀ q ∈ s.queue, q.tid < s.nextTid)

/-- The pending handle the focus effect computes for a target sitting at
sequence index idx under the given stored page size. -/
def goodPending (f idx ps : Nat) : Pending :=
  ⟨f, idx / effPageSize ps, idx - (idx / effPageSize ps) * effPageSize ps⟩

/-- Invariant tying every pending handle and every performed scroll to the
page size in force when it was computed: the focus parameter is stable,
a live pending handle is always the one recomputed from the current page
size, and every scroll-and-highlight ever performed used the row offset
derived from the page size current at that moment. -/
def PendingInv (f idx : Nat) (s : CState) : Prop :=
  s.focusId = some f ∧
  (s.pending = none ∨ s.pending = some (goodPending f idx s.pageSize)) ∧
  (∀ a ∈ s.arms, a.id = f ∧
    a.rowIndexWithinPage =
      idx - (idx / effPageSize a.pageSizeAt) * effPageSize a.pageSizeAt)

/-- Recognizer for focus-parameter-change stimuli. -/
def isSetFocusEv : FEvent → Bool
  | .setFocus _ => true
  | _ => false

/-- Sample filtered sequence of 25 record ids (1 through 25). -/
def assetRows25 : List Nat := (List.range 25).map (fun i => i + 1)

/-- Sample coordinator state on the first page with page size 10 and focus
on id 18 (sequence index 17). -/
def assetFocusState : CState :=
  { now := 0, page := 0, pageSize := 10, focusId := some 18, highlightId := none,
    pending := none, highlightTimer := none, queue := [], nextTid := 0,
    arms := [], navs := [] }

/-- Sample coordinator state requesting focus on an id that is not in the
filtered sequence. -/
def assetMissState : CState :=
  { assetFocusState with focusId := some 99 }

/-- Sample state about to run the deferred scroll-and-highlight: a pending
handle, an otherwise empty queue, no outstanding timer. -/
def armedBaseState : CState :=
  { now := 100, page := 0, pageSize := 10, focusId := some 1, highlightId := none,
    pending := some ⟨1, 0, 0⟩, highlightTimer := none, queue := [], nextTid := 3,
    arms := [], navs := [] }

/-! ## URL query parameters (Login.tsx Tickets component) -/

/-- URLSearchParams.get: first value bound to the key. -/
def getParam : List (String × String) → String → Option String
  | [], _ => none
  | kv :: rest, k => if kv.fst = k then some kv.snd else getParam rest k

/-- URLSearchParams.delete: drop every binding of the key. -/
def deleteParam : List (String × String) → String → List (String × String)
  | [], _ => []
  | kv :: rest, k => if kv.fst = k then deleteParam rest k else kv :: deleteParam rest k

/-- The auto-open-edit effect of the Tickets page (Login.tsx): admins only;
bail out on a falsy edit id, an empty ticket list, or an id not found;
otherwise open the edit dialog for the row and replace the URL with the
edit parameter removed.  Returns the opened row id and the navigation. -/
def ticketsEditEffect (isAdmin : Bool) (editId : Option Nat) (tickets : List Nat)
    (params : List (String × String)) : Option (Nat × NavAction) :=
  if !isAdmin then none
  else
    match editId with
    | none => none
    | some e =>
      if e = 0 then none
      else if tickets.length = 0 then none
      else
        match tickets.find? (fun t => t = e) with
        | none => none
        | some row =>
          let remaining := deleteParam params "edit"
          some (row, ⟨"/tickets", remaining, true⟩)

/-! ## Theorems -/

/-- C1: for every original request that receives a 401 (retry flag not yet
set), at most one refresh-and-replay cycle occurs; every refresh call is
made only after the request was marked with the retry flag; and when the
refresh succeeds but the replayed request again returns 401, that 401 is
surfaced to the caller as a failure with exactly one refresh attempt. -/
theorem retry_once (env : RefreshEnv) (store : Option Tokens) (cfg : RetryConfig)
    (horig : cfg.retryFlag = false) :
    refreshCount (interceptorHandle env store cfg 401) ≤ 1 ∧
    (∀ b, IAction.refreshCall b ∈ (interceptorHandle env store cfg 401).log → b = true) ∧
    (∀ tks a, store = some tks → tks.refresh ≠ "" →
      env.refreshOutcome = some a → a ≠ "" →
      env.replayOutcome = .httpError 401 →
      (interceptorHandle env store cfg 401).result = .httpError 401 ∧
      refreshCount (interceptorHandle env store cfg 401) = 1) := by
  obtain ⟨ro, rp⟩ := env
  cases store with
  | none =>
    simp [interceptorHandle, handleResponseError, horig, refreshCount, isRefreshCall]
  | some tks =>
    by_cases hr : tks.refresh = ""
    · simp [interceptorHandle, handleResponseError, horig, truthy, hr,
        refreshCount, isRefreshCall]
      rintro tks1 a rfl h2
      exact absurd hr h2
    · cases ro with
      | none =>
        simp [interceptorHandle, handleResponseError, horig, truthy, hr,
          refreshCount, isRefreshCall]
      | some a =>
        by_cases ha : a = ""
        · simp [interceptorHandle, handleResponseError, horig, truthy, hr, ha,
            refreshCount, isRefreshCall]
        · cases rp with
          | ok =>
            simp [interceptorHandle, handleResponseError, horig, truthy, hr, ha,
              refreshCount, isRefreshCall]
          | httpError s =>
            by_cases hs : s = 401 <;>
              simp [interceptorHandle, handleResponseError, horig, truthy, hr, ha, hs,
                refreshCount, isRefreshCall, attachAuth, setAuthHeader]

/-- Witness for retry_once: concrete stored tokens, successful refresh,
replay again rejected with 401. -/
theorem retry_once_witness :
    refreshCount (interceptorHandle ⟨some "newAcc", .httpError 401⟩
        (some ⟨"oldAcc", "refTok"⟩) ⟨none, false⟩ 401) ≤ 1 ∧
    (∀ b, IAction.refreshCall b ∈ (interceptorHandle ⟨some "newAcc", .httpError 401⟩
        (some ⟨"oldAcc", "refTok"⟩) ⟨none, false⟩ 401).log → b = true) ∧
    (∀ tks a, (some (Tokens.mk "oldAcc" "refTok") : Option Tokens) = some tks →
      tks.refresh ≠ "" →
      (some "newAcc" : Option String) = some a → a ≠ "" →
      (HttpOutcome.httpError 401 : HttpOutcome) = .httpError 401 →
      (interceptorHandle ⟨some "newAcc", .httpError 401⟩
        (some ⟨"oldAcc", "refTok"⟩) ⟨none, false⟩ 401).result = .httpError 401 ∧
      refreshCount (interceptorHandle ⟨some "newAcc", .httpError 401⟩
        (some ⟨"oldAcc", "refTok"⟩) ⟨none, false⟩ 401) = 1) :=
  retry_once ⟨some "newAcc", .httpError 401⟩ (some ⟨"oldAcc", "refTok"⟩) ⟨none, false⟩ rfl

/-- C2: for every refresh attempt triggered by a 401 on a not-yet-retried
request: on refresh success the stored pair afterwards keeps the old
refresh token and carries the newly returned access token, and no
navigation to login happens; on refresh failure (the call threw, or the
body carried no usable access token) or when no refresh token is stored,
storage is cleared, the browser is sent to the login entry point, and the
original 401 is still propagated to the caller. -/
theorem refresh_storage_effect (env : RefreshEnv) (store : Option Tokens)
    (cfg : RetryConfig) (horig : cfg.retryFlag = false) :
    (∀ tks a, store = some tks → tks.refresh ≠ "" →
      env.refreshOutcome = some a → a ≠ "" →
      (interceptorHandle env store cfg 401).store = some ⟨a, tks.refresh⟩ ∧
      IAction.navigateLogin ∉ (interceptorHandle env store cfg 401).log) ∧
    (∀ tks, store = some tks → tks.refresh ≠ "" →
      (env.refreshOutcome = none ∨ env.refreshOutcome = some "") →
      (interceptorHandle env store cfg 401).store = none ∧
      IAction.navigateLogin ∈ (interceptorHandle env store cfg 401).log ∧
      (interceptorHandle env store cfg 401).result = .httpError 401) ∧
    ((store = none ∨ ∃ tks, store = some tks ∧ tks.refresh = "") →
      (interceptorHandle env store cfg 401).store = none ∧
      IAction.navigateLogin ∈ (interceptorHandle env store cfg 401).log ∧
      (interceptorHandle env store cfg 401).result = .httpError 401) := by
  obtain ⟨ro, rp⟩ := env
  cases store with
  | none =>
    simp [interceptorHandle, handleResponseError, horig]
  | some tks =>
    by_cases hr : tks.refresh = ""
    · simp [interceptorHandle, handleResponseError, horig, truthy, hr]
      rintro tks1 a rfl h2
      exact absurd hr h2
    · cases ro with
      | none =>
        simp [interceptorHandle, handleResponseError, horig, truthy, hr]
      | some a =>
        by_cases ha : a = ""
        · simp [interceptorHandle, handleResponseError, horig, truthy, hr, ha]
        · cases rp with
          | ok =>
            simp [interceptorHandle, handleResponseError, horig, truthy, hr, ha]
          | httpError s =>
            by_cases hs : s = 401 <;>
              simp [interceptorHandle, handleResponseError, horig, truthy, hr, ha, hs,
                attachAuth, setAuthHeader]

/-- Witness for refresh_storage_effect: concrete stored tokens with a
successful refresh and a clean replay. -/
theorem refresh_storage_effect_witness :
    (∀ tks a, (some (Tokens.mk "oldAcc" "refTok") : Option Tokens) = some tks →
      tks.refresh ≠ "" →
      (some "newAcc" : Option String) = some a → a ≠ "" →
      (interceptorHandle ⟨some "newAcc", .ok⟩
        (some ⟨"oldAcc", "refTok"⟩) ⟨none, false⟩ 401).store = some ⟨a, tks.refresh⟩ ∧
      IAction.navigateLogin ∉ (interceptorHandle ⟨some "newAcc", .ok⟩
        (some ⟨"oldAcc", "refTok"⟩) ⟨none, false⟩ 401).log) ∧
    (∀ tks, (some (Tokens.mk "oldAcc" "refTok") : Option Tokens) = some tks →
      tks.refresh ≠ "" →
      ((some "newAcc" : Option String) = none ∨ (some "newAcc" : Option String) = some "") →
      (interceptorHandle ⟨some "newAcc", .ok⟩
        (some ⟨"oldAcc", "refTok"⟩) ⟨none, false⟩ 401).store = none ∧
      IAction.navigateLogin ∈ (interceptorHandle ⟨some "newAcc", .ok⟩
        (some ⟨"oldAcc", "refTok"⟩) ⟨none, false⟩ 401).log ∧
      (interceptorHandle ⟨some "newAcc", .ok⟩
        (some ⟨"oldAcc", "refTok"⟩) ⟨none, false⟩ 401).result = .httpError 401) ∧
    (((some (Tokens.mk "oldAcc" "refTok") : Option Tokens) = none ∨
      ∃ tks, (some (Tokens.mk "oldAcc" "refTok") : Option Tokens) = some tks ∧
        tks.refresh = "") →
      (interceptorHandle ⟨some "newAcc", .ok⟩
        (some ⟨"oldAcc", "refTok"⟩) ⟨none, false⟩ 401).store = none ∧
      IAction.navigateLogin ∈ (interceptorHandle ⟨some "newAcc", .ok⟩
        (some ⟨"oldAcc", "refTok"⟩) ⟨none, false⟩ 401).log ∧
      (interceptorHandle ⟨some "newAcc", .ok⟩
        (some ⟨"oldAcc", "refTok"⟩) ⟨none, false⟩ 401).result = .httpError 401) :=
  refresh_storage_effect ⟨some "newAcc", .ok⟩ (some ⟨"oldAcc", "refTok"⟩) ⟨none, false⟩ rfl

/-- Helper: the fallback loop never throws; it attempts every item in order
and succeeds exactly on the items whose patch does not fail. -/
theorem patchEachUnread_eq (env : NotifEnv) (l : List NotifItem) :
    patchEachUnread env l =
      .ok (l.map NotifItem.id, (l.map NotifItem.id).filter (fun i => !env.patchFails i)) := by
  induction l with
  | nil => rfl
  | cons n rest ih =>
    by_cases h : env.patchFails n.id = true <;>
      simp [patchEachUnread, patchNotifItem, tryCatch, h, ih]

/-- C8: when the bulk mark-all-read endpoint errors, each currently-unread
notification is patched individually, each individual failure is
swallowed (one failure does not abort the batch: later items are still
attempted and the successes are kept), and the whole operation returns
normally — no exception reaches the caller. -/
theorem mark_all_read_fallback (env : NotifEnv) (notifications : Option (List NotifItem))
    (hbulk : env.bulkFails = true) :
    markAllReadRun env notifications =
      .ok (((notifications.getD []).filter (fun n => !isRead n)).map NotifItem.id,
        ((((notifications.getD []).filter (fun n => !isRead n)).map NotifItem.id).filter
          (fun i => !env.patchFails i))) := by
  simp [markAllReadRun, postMarkAllRead, tryCatch, hbulk, patchEachUnread_eq]

/-- Witness for mark_all_read_fallback: five unread notifications, the bulk
endpoint fails, the patches of ids 1, 2, 3 fail; ids 4 and 5 are still
patched and no exception escapes. -/
theorem mark_all_read_fallback_witness :
    markAllReadRun ⟨true, fun i => i = 1 || i = 2 || i = 3⟩
      (some [⟨1, none, none, none⟩, ⟨2, none, none, none⟩, ⟨3, none, none, none⟩,
             ⟨4, none, none, none⟩, ⟨5, none, none, none⟩]) =
      .ok ([1, 2, 3, 4, 5], [4, 5]) := by
  have h := mark_all_read_fallback ⟨true, fun i => i = 1 || i = 2 || i = 3⟩
    (some [⟨1, none, none, none⟩, ⟨2, none, none, none⟩, ⟨3, none, none, none⟩,
           ⟨4, none, none, none⟩, ⟨5, none, none, none⟩]) rfl
  simpa using h

/-- Helper: a found, truthy focus id makes the focus effect store the handle
computed from the current (effective) page size, whatever else it does. -/
theorem focusEffect_pending_found (rows : List Nat) (s : CState) (f idx : Nat)
    (hf : s.focusId = some f) (hf0 : f ≠ 0) (hidx : findIndexOfId rows f = some idx) :
    (focusEffect rows s).pending =
      some ⟨f, idx / effPageSize s.pageSize,
        idx - (idx / effPageSize s.pageSize) * effPageSize s.pageSize⟩ := by
  have hne : rows.length ≠ 0 := by
    cases rows with
    | nil => simp [findIndexOfId] at hidx
    | cons r rest => simp
  unfold focusEffect
  rw [hf]
  simp only [hf0, hne, hidx, if_false, ite_false]
  split <;> simp [schedule]

/-- C3: whenever the focus target is found at sequence index idx, the
coordinator computes targetPage as the floor of idx divided by the page
size and rowIndexWithinPage as idx minus targetPage times the page size,
and stores exactly these in the pending handle.  (Instantiated by the
witness at a 25-record sequence, page size 10, target index 17, giving
targetPage 1 and rowIndexWithinPage 7.) -/
theorem focus_target_computation (rows : List Nat) (s : CState) (f idx : Nat)
    (hf : s.focusId = some f) (hf0 : f ≠ 0)
    (hidx : findIndexOfId rows f = some idx) (hps : 0 < s.pageSize) :
    (focusEffect rows s).pending =
      some ⟨f, idx / s.pageSize, idx - (idx / s.pageSize) * s.pageSize⟩ := by
  have h := focusEffect_pending_found rows s f idx hf hf0 hidx
  have heff : effPageSize s.pageSize = s.pageSize := by
    unfold effPageSize
    rw [if_neg (Nat.pos_iff_ne_zero.mp hps)]
  rw [h, heff]

/-- Witness for focus_target_computation: 25 records, page size 10, target
id 18 sits at index 17; the pending handle is page 1, row offset 7. -/
theorem focus_target_computation_witness :
    (focusEffect assetRows25 assetFocusState).pending = some ⟨18, 1, 7⟩ := by
  have h := focus_target_computation assetRows25 assetFocusState 18 17 rfl
    (by decide) (by decide) (by decide)
  simpa using h

/-- C4: a focus request whose target id is absent from the filtered sequence
does nothing at all: the coordinator state is unchanged (same highlight,
same pending handle, nothing newly scheduled, no navigation, no error). -/
theorem focus_silent_miss (rows : List Nat) (s : CState) (f : Nat)
    (hf : s.focusId = some f) (habs : findIndexOfId rows f = none) :
    focusEffect rows s = s := by
  unfold focusEffect
  rw [hf]
  by_cases hf0 : f = 0
  · simp [hf0]
  · by_cases hlen : rows.length = 0
    · simp [hf0, hlen]
    · simp [hf0, hlen, habs]

/-- Witness for focus_silent_miss: focus on id 99, absent from the
25-record sequence. -/
theorem focus_silent_miss_witness :
    focusEffect assetRows25 assetMissState = assetMissState :=
  focus_silent_miss assetRows25 assetMissState 99 rfl (by decide)

/-- C5: arming the highlight starts a fresh timer due exactly 4500 ms after
the arming instant; with no new focus request, the only further step the
machine can take is that timer firing, which clears the highlight at
exactly that due time — so the highlight id is cleared when the 4500 ms
timer fires and not before. -/
theorem highlight_expiry (rows : List Nat) (s : CState) (p : Pending)
    (hp : s.pending = some p) (hq : s.queue = []) (ht : s.highlightTimer = none) :
    (armNow s).highlightId = some p.id ∧
    (armNow s).now = s.now ∧
    (armNow s).queue = [⟨s.nextTid, s.now + 4500, FTask.clearHighlight⟩] ∧
    (stepEv rows (armNow s) FEvent.fire).highlightId = none ∧
    (stepEv rows (armNow s) FEvent.fire).now = s.now + 4500 := by
  have hmax : max s.now (s.now + 4500) = s.now + 4500 := by omega
  simp [armNow, hp, hq, ht, schedule, stepEv, pickMin, runTask, hmax]

/-- Witness for highlight_expiry at a concrete armed state. -/
theorem highlight_expiry_witness :
    (armNow armedBaseState).highlightId = some (Pending.mk 1 0 0).id ∧
    (armNow armedBaseState).now = armedBaseState.now ∧
    (armNow armedBaseState).queue =
      [⟨armedBaseState.nextTid, armedBaseState.now + 4500, FTask.clearHighlight⟩] ∧
    (stepEv [1] (armNow armedBaseState) FEvent.fire).highlightId = none ∧
    (stepEv [1] (armNow armedBaseState) FEvent.fire).now = armedBaseState.now + 4500 :=
  highlight_expiry [1] armedBaseState ⟨1, 0, 0⟩ rfl rfl rfl
/-- Helper: the queue selector never returns none on a nonempty queue. -/
theorem pickMin_cons_isSome (a : QTask) (l : List QTask) :
    (pickMin (a :: l)).isSome = true := by
  rw [pickMin]
  cases pickMin l with
  | none => rfl
  | some ml =>
    obtain ⟨m, r⟩ := ml
    by_cases h : a.due ≤ m.due <;> simp [h]

/-- Helper: firing a callback removes exactly it — the selected callback and
the remaining queue form a permutation of the original queue. -/
theorem pickMin_perm (l : List QTask) (q : QTask) (rest : List QTask)
    (h : pickMin l = some (q, rest)) : l.Perm (q :: rest) := by
  induction l generalizing q rest with
  | nil => simp [pickMin] at h
  | cons a l ih =>
    rw [pickMin] at h
    split at h
    · rename_i x hl
      simp only [Option.some.injEq, Prod.mk.injEq] at h
      obtain ⟨h1, h2⟩ := h
      have hnil : l = [] := by
        cases l with
        | nil => rfl
        | cons b l2 =>
          have hs := pickMin_cons_isSome b l2
          rw [hl] at hs
          simp at hs
      subst hnil
      subst h1
      subst h2
      exact List.Perm.refl _
    · rename_i x m rest1 hl
      split at h
      · rename_i hd
        simp only [Option.some.injEq, Prod.mk.injEq] at h
        obtain ⟨h1, h2⟩ := h
        subst h1
        subst h2
        exact List.Perm.refl _
      · rename_i hd
        simp only [Option.some.injEq, Prod.mk.injEq] at h
        obtain ⟨h1, h2⟩ := h
        subst h1
        subst h2
        have hperm := ih m rest1 hl
        exact (hperm.cons a).trans (List.Perm.swap m a rest1)

/-- Helper: the timer invariant only looks at the queue, the timer ref and
the fresh-id counter. -/
theorem timerInv_congr {s1 s2 : CState} (h : TimerInv s1)
    (hq : s2.queue = s1.queue) (ht : s2.highlightTimer = s1.highlightTimer)
    (hn : s2.nextTid = s1.nextTid) : TimerInv s2 := by
  unfold TimerInv at h ⊢
  rw [hq, ht, hn]
  exact h

/-- Helper: scheduling any callback that is not the expiry timer preserves
the timer invariant. -/
theorem timerInv_schedule (s : CState) (t : FTask) (d : Nat)
    (ht : t ≠ FTask.clearHighlight) (h : TimerInv s) : TimerInv (schedule s t d) := by
  obtain ⟨h1, h2, h3⟩ := h
  refine ⟨?_, ?_, ?_⟩
  · simpa [schedule, List.countP_append, isClearTask, ht] using h1
  · intro q hq hc
    rcases List.mem_append.mp hq with hmem | hmem
    · exact h2 q hmem hc
    · simp at hmem
      subst hmem
      simp [isClearTask, ht] at hc
  · intro q hq
    rcases List.mem_append.mp hq with hmem | hmem
    · exact Nat.lt_succ_of_lt (h3 q hmem)
    · simp at hmem
      subst hmem
      exact Nat.lt_succ_self _

/-- Helper: the focus effect preserves the timer invariant (it only ever
schedules page changes or scroll callbacks, never an expiry timer). -/
theorem timerInv_focusEffect (rows : List Nat) (s : CState) (h : TimerInv s) :
    TimerInv (focusEffect rows s) := by
  unfold focusEffect
  split
  · exact h
  split
  · exact h
  split
  · exact h
  split
  · exact h
  dsimp only
  split
  · exact timerInv_schedule _ _ _ (by simp) (timerInv_congr h rfl rfl rfl)
  · exact timerInv_schedule _ _ _ (by simp) (timerInv_congr h rfl rfl rfl)

/-- Helper: the settle effect preserves the timer invariant. -/
theorem timerInv_settleEffect (s : CState) (h : TimerInv s) :
    TimerInv (settleEffect s) := by
  unfold settleEffect
  split
  · exact h
  split
  · exact h
  · exact timerInv_schedule _ _ _ (by simp) h

/-- Helper: the scroll-and-highlight callback preserves the timer invariant —
it cancels the outstanding expiry timer (which, by the invariant, is the
only queued expiry callback) before queueing a fresh one. -/
theorem timerInv_armNow (s : CState) (h : TimerInv s) : TimerInv (armNow s) := by
  obtain ⟨h1, h2, h3⟩ := h
  unfold armNow
  cases hp : s.pending with
  | none => exact ⟨h1, h2, h3⟩
  | some p =>
    dsimp only [schedule]
    cases ht : s.highlightTimer with
    | none =>
      have hzero : s.queue.countP isClearTask = 0 := by
        rw [List.countP_eq_zero]
        intro q hq hc
        have h5 := h2 q hq hc
        rw [ht] at h5
        simp at h5
      refine ⟨?_, ?_, ?_⟩
      · simp [List.countP_append, isClearTask, hzero]
      · intro q hq hc
        rcases List.mem_append.mp hq with hmem | hmem
        · have h6 := List.countP_eq_zero.mp hzero q hmem
          exact absurd hc h6
        · simp at hmem
          subst hmem
          rfl
      · intro q hq
        rcases List.mem_append.mp hq with hmem | hmem
        · exact Nat.lt_succ_of_lt (h3 q hmem)
        · simp at hmem
          subst hmem
          exact Nat.lt_succ_self _
    | some tid =>
      have hzero : (s.queue.filter (fun q => q.tid != tid)).countP isClearTask = 0 := by
        rw [List.countP_eq_zero]
        intro q hq hc
        obtain ⟨hmem, hne⟩ := List.mem_filter.mp hq
        have h5 := h2 q hmem hc
        rw [ht] at h5
        have htid : tid = q.tid := Option.some.inj h5
        simp [htid] at hne
      refine ⟨?_, ?_, ?_⟩
      · simp [List.countP_append, isClearTask, hzero]
      · intro q hq hc
        rcases List.mem_append.mp hq with hmem | hmem
        · have h6 := List.countP_eq_zero.mp hzero q hmem
          exact absurd hc h6
        · simp at hmem
          subst hmem
          rfl
      · intro q hq
        rcases List.mem_append.mp hq with hmem | hmem
        · exact Nat.lt_succ_of_lt (h3 q (List.mem_filter.mp hmem).1)
        · simp at hmem
          subst hmem
          exact Nat.lt_succ_self _

/-- Helper: running any fired callback preserves the timer invariant. -/
theorem timerInv_runTask (rows : List Nat) (s : CState) (t : FTask) (h : TimerInv s) :
    TimerInv (runTask rows s t) := by
  cases t with
  | pageChange target =>
    show TimerInv
      (if s.page = target then s
       else settleEffect (focusEffect rows { s with page := target }))
    split
    · exact h
    · exact timerInv_settleEffect _ (timerInv_focusEffect rows _ (timerInv_congr h rfl rfl rfl))
  | arm => exact timerInv_armNow s h
  | clearHighlight => exact timerInv_congr h rfl rfl rfl

/-- Helper: every machine step preserves the timer invariant. -/
theorem timerInv_stepEv (rows : List Nat) (s : CState) (e : FEvent) (h : TimerInv s) :
    TimerInv (stepEv rows s e) := by
  cases e with
  | fire =>
    show TimerInv
      (match pickMin s.queue with
       | none => s
       | some (q, rest) => runTask rows { s with queue := rest, now := max s.now q.due } q.task)
    cases hq : pickMin s.queue with
    | none => exact h
    | some qr =>
      obtain ⟨q, rest⟩ := qr
      have hperm := pickMin_perm s.queue q rest hq
      have hmid : TimerInv { s with queue := rest, now := max s.now q.due } := by
        obtain ⟨h1, h2, h3⟩ := h
        refine ⟨?_, ?_, ?_⟩
        · show rest.countP isClearTask ≤ 1
          have hcnt := hperm.countP_eq isClearTask
          rw [List.countP_cons] at hcnt
          omega
        · intro q1 hq1 hc
          exact h2 q1 (hperm.mem_iff.mpr (List.mem_cons_of_mem _ hq1)) hc
        · intro q1 hq1
          exact h3 q1 (hperm.mem_iff.mpr (List.mem_cons_of_mem _ hq1))
      exact timerInv_runTask rows _ q.task hmid
  | setPageSize ps =>
    show TimerInv (if s.pageSize = ps then s else focusEffect rows { s with pageSize := ps })
    split
    · exact h
    · exact timerInv_focusEffect rows _ (timerInv_congr h rfl rfl rfl)
  | setFocus f =>
    show TimerInv (if s.focusId = f then s else focusEffect rows { s with focusId := f })
    split
    · exact h
    · exact timerInv_focusEffect rows _ (timerInv_congr h rfl rfl rfl)

/-- Helper: the timer invariant holds in every reachable state. -/
theorem timerInv_execEvs (rows : List Nat) (s : CState) (evs : List FEvent)
    (h : TimerInv s) : TimerInv (execEvs rows s evs) := by
  induction evs generalizing s with
  | nil => exact h
  | cons e evs ih => exact ih _ (timerInv_stepEv rows s e h)

/-- C6: in every reachable state of the focus coordinator — any initial
pagination model and focus parameter, any sequence of fired callbacks,
page-size changes and new focus requests — at most one highlight-expiry
timer is queued (arming always cancels the previous timer before starting
a fresh one, so two timers never run together and repeated focus requests
do not stack timers), and the highlight state holds at most one record
id. -/
theorem highlight_timer_no_stacking (rows : List Nat) (f : Option Nat)
    (page0 ps0 : Nat) (evs : List FEvent) :
    (execEvs rows (mount rows f page0 ps0) evs).queue.countP isClearTask ≤ 1 ∧
    (∀ i j, (execEvs rows (mount rows f page0 ps0) evs).highlightId = some i →
      (execEvs rows (mount rows f page0 ps0) evs).highlightId = some j → i = j) := by
  have hinit : TimerInv
      { now := 0, page := page0, pageSize := ps0, focusId := f, highlightId := none,
        pending := none, highlightTimer := none, queue := [], nextTid := 0,
        arms := [], navs := [] } := by
    refine ⟨by simp, ?_, ?_⟩ <;> intro q hq <;> simp at hq
  have hmount : TimerInv (mount rows f page0 ps0) :=
    timerInv_settleEffect _ (timerInv_focusEffect rows _ hinit)
  have hall := timerInv_execEvs rows _ evs hmount
  refine ⟨hall.1, ?_⟩
  intro i j hi hj
  rw [hi] at hj
  exact Option.some.inj hj
/-- Helper: the focus effect never touches the scroll log. -/
theorem focusEffect_arms (rows : List Nat) (s : CState) :
    (focusEffect rows s).arms = s.arms := by
  unfold focusEffect
  split
  · rfl
  split
  · rfl
  split
  · rfl
  split
  · rfl
  dsimp only
  split <;> simp [schedule]

/-- Helper: the focus effect never changes the page size. -/
theorem focusEffect_pageSize (rows : List Nat) (s : CState) :
    (focusEffect rows s).pageSize = s.pageSize := by
  unfold focusEffect
  split
  · rfl
  split
  · rfl
  split
  · rfl
  split
  · rfl
  dsimp only
  split <;> simp [schedule]

/-- Helper: the focus effect never changes the focus parameter. -/
theorem focusEffect_focusId (rows : List Nat) (s : CState) :
    (focusEffect rows s).focusId = s.focusId := by
  unfold focusEffect
  split
  · rfl
  split
  · rfl
  split
  · rfl
  split
  · rfl
  dsimp only
  split <;> simp [schedule]

/-- Helper: the focus effect never issues a navigation. -/
theorem focusEffect_navs (rows : List Nat) (s : CState) :
    (focusEffect rows s).navs = s.navs := by
  unfold focusEffect
  split
  · rfl
  split
  · rfl
  split
  · rfl
  split
  · rfl
  dsimp only
  split <;> simp [schedule]

/-- Helper: the settle effect only ever schedules a callback: the scroll
log, page size, focus parameter, pending handle and navigations are all
untouched. -/
theorem settleEffect_fields (s : CState) :
    (settleEffect s).arms = s.arms ∧ (settleEffect s).pageSize = s.pageSize ∧
    (settleEffect s).focusId = s.focusId ∧ (settleEffect s).pending = s.pending ∧
    (settleEffect s).navs = s.navs := by
  unfold settleEffect
  split
  · exact ⟨rfl, rfl, rfl, rfl, rfl⟩
  split
  · exact ⟨rfl, rfl, rfl, rfl, rfl⟩
  · simp [schedule]

/-- Helper: when the focus target is found, running the focus effect
re-establishes the pending invariant from just the focus-parameter and
scroll-log parts (the pending handle is overwritten with the one
recomputed from the current page size). -/
theorem pendingInv_focusEffect (rows : List Nat) (f idx : Nat) (s : CState)
    (hf0 : f ≠ 0) (hidx : findIndexOfId rows f = some idx)
    (h1 : s.focusId = some f)
    (h3 : ∀ a ∈ s.arms, a.id = f ∧
      a.rowIndexWithinPage =
        idx - (idx / effPageSize a.pageSizeAt) * effPageSize a.pageSizeAt) :
    PendingInv f idx (focusEffect rows s) := by
  refine ⟨?_, ?_, ?_⟩
  · rw [focusEffect_focusId]
    exact h1
  · right
    rw [focusEffect_pending_found rows s f idx h1 hf0 hidx, focusEffect_pageSize]
    rfl
  · rw [focusEffect_arms]
    exact h3

/-- Helper: the settle effect preserves the pending invariant. -/
theorem pendingInv_settleEffect (f idx : Nat) (s : CState)
    (h : PendingInv f idx s) : PendingInv f idx (settleEffect s) := by
  obtain ⟨ha, hps, hfoc, hpend, hnav⟩ := settleEffect_fields s
  obtain ⟨h1, h2, h3⟩ := h
  refine ⟨?_, ?_, ?_⟩
  · rw [hfoc]
    exact h1
  · rw [hpend, hps]
    exact h2
  · rw [ha]
    exact h3

/-- Helper: the scroll-and-highlight callback preserves the pending
invariant: it arms with the values of the live handle, which the
invariant pins to the current page size, then destroys the handle. -/
theorem pendingInv_armNow (f idx : Nat) (s : CState)
    (h : PendingInv f idx s) : PendingInv f idx (armNow s) := by
  obtain ⟨h1, h2, h3⟩ := h
  unfold armNow
  cases hp : s.pending with
  | none => exact ⟨h1, h2, h3⟩
  | some p =>
    have hpgood : p = goodPending f idx s.pageSize := by
      rcases h2 with h2 | h2
      · rw [hp] at h2
        simp at h2
      · rw [hp] at h2
        exact Option.some.inj h2
    have harms : ∀ a ∈ s.arms ++
        [ArmEvent.mk p.id p.rowIndexWithinPage s.page s.pageSize s.now],
        a.id = f ∧ a.rowIndexWithinPage =
          idx - (idx / effPageSize a.pageSizeAt) * effPageSize a.pageSizeAt := by
      intro a ha
      rcases List.mem_append.mp ha with hmem | hmem
      · exact h3 a hmem
      · simp at hmem
        subst hmem
        rw [hpgood]
        exact ⟨rfl, rfl⟩
    dsimp only [schedule]
    cases s.highlightTimer with
    | none => exact ⟨h1, Or.inl rfl, harms⟩
    | some tid => exact ⟨h1, Or.inl rfl, harms⟩

/-- Helper: running any fired callback preserves the pending invariant. -/
theorem pendingInv_runTask (rows : List Nat) (f idx : Nat) (s : CState) (t : FTask)
    (hf0 : f ≠ 0) (hidx : findIndexOfId rows f = some idx)
    (h : PendingInv f idx s) : PendingInv f idx (runTask rows s t) := by
  obtain ⟨h1, h2, h3⟩ := h
  cases t with
  | pageChange target =>
    show PendingInv f idx
      (if s.page = target then s
       else settleEffect (focusEffect rows { s with page := target }))
    split
    · exact ⟨h1, h2, h3⟩
    · exact pendingInv_settleEffect f idx _
        (pendingInv_focusEffect rows f idx _ hf0 hidx h1 h3)
  | arm => exact pendingInv_armNow f idx s ⟨h1, h2, h3⟩
  | clearHighlight => exact ⟨h1, h2, h3⟩

/-- Helper: every stimulus other than a focus-parameter change preserves the
pending invariant; in particular a page-size change immediately recomputes
the handle from the new size. -/
theorem pendingInv_stepEv (rows : List Nat) (f idx : Nat) (s : CState) (e : FEvent)
    (hf0 : f ≠ 0) (hidx : findIndexOfId rows f = some idx)
    (hnf : isSetFocusEv e = false)
    (h : PendingInv f idx s) : PendingInv f idx (stepEv rows s e) := by
  obtain ⟨h1, h2, h3⟩ := h
  cases e with
  | fire =>
    show PendingInv f idx
      (match pickMin s.queue with
       | none => s
       | some (q, rest) =>
         runTask rows { s with queue := rest, now := max s.now q.due } q.task)
    cases pickMin s.queue with
    | none => exact ⟨h1, h2, h3⟩
    | some qr =>
      obtain ⟨q, rest⟩ := qr
      exact pendingInv_runTask rows f idx _ q.task hf0 hidx ⟨h1, h2, h3⟩
  | setPageSize ps =>
    show PendingInv f idx
      (if s.pageSize = ps then s else focusEffect rows { s with pageSize := ps })
    split
    · exact ⟨h1, h2, h3⟩
    · exact pendingInv_focusEffect rows f idx _ hf0 hidx h1 h3
  | setFocus g => simp [isSetFocusEv] at hnf

/-- Helper: the pending invariant holds along any focus-stable run. -/
theorem pendingInv_execEvs (rows : List Nat) (f idx : Nat) (evs : List FEvent)
    (hf0 : f ≠ 0) (hidx : findIndexOfId rows f = some idx) :
    ∀ s, (∀ e ∈ evs, isSetFocusEv e = false) → PendingInv f idx s →
      PendingInv f idx (execEvs rows s evs) := by
  induction evs with
  | nil =>
    intro s _ h
    exact h
  | cons e evs ih =>
    intro s hnf h
    exact ih _ (fun e2 he2 => hnf e2 (List.mem_cons_of_mem _ he2))
      (pendingInv_stepEv rows f idx s e hf0 hidx (hnf e (List.mem_cons_self _ _)) h)

/-- C7: along any run in which the focus parameter stays put (fired
callbacks and page-size changes in any order), every scroll-and-highlight
ever performed uses the row offset recomputed from the page size in force
at the moment it runs, and any live pending handle is the one recomputed
from the current page size — so a pending handle computed under an old
page size is always overwritten before it can act: the stale handle never
triggers a scroll or a highlight, and recomputation uses the new page
size. -/
theorem page_size_change_recompute (rows : List Nat) (f idx page0 ps0 : Nat)
    (evs : List FEvent) (hf0 : f ≠ 0) (hidx : findIndexOfId rows f = some idx)
    (hnf : ∀ e ∈ evs, isSetFocusEv e = false) :
    (∀ a ∈ (execEvs rows (mount rows (some f) page0 ps0) evs).arms,
      a.id = f ∧ a.rowIndexWithinPage =
        idx - (idx / effPageSize a.pageSizeAt) * effPageSize a.pageSizeAt) ∧
    ((execEvs rows (mount rows (some f) page0 ps0) evs).pending = none ∨
      (execEvs rows (mount rows (some f) page0 ps0) evs).pending =
        some (goodPending f idx
          (execEvs rows (mount rows (some f) page0 ps0) evs).pageSize)) := by
  have hmount : PendingInv f idx (mount rows (some f) page0 ps0) := by
    unfold mount
    refine pendingInv_settleEffect f idx _
      (pendingInv_focusEffect rows f idx _ hf0 hidx rfl ?_)
    intro a ha
    simp at ha
  have hall := pendingInv_execEvs rows f idx evs hf0 hidx _ hnf hmount
  exact ⟨hall.2.2, hall.2.1⟩

/-- Witness for page_size_change_recompute: 25 records, focus on id 18,
page size changed from 10 to 7 while the page change is in flight, then
all callbacks fired. -/
theorem page_size_change_recompute_witness :
    (∀ a ∈ (execEvs assetRows25 (mount assetRows25 (some 18) 0 10)
        [FEvent.setPageSize 7, FEvent.fire, FEvent.fire, FEvent.fire]).arms,
      a.id = 18 ∧ a.rowIndexWithinPage =
        17 - (17 / effPageSize a.pageSizeAt) * effPageSize a.pageSizeAt) ∧
    ((execEvs assetRows25 (mount assetRows25 (some 18) 0 10)
        [FEvent.setPageSize 7, FEvent.fire, FEvent.fire, FEvent.fire]).pending = none ∨
      (execEvs assetRows25 (mount assetRows25 (some 18) 0 10)
        [FEvent.setPageSize 7, FEvent.fire, FEvent.fire, FEvent.fire]).pending =
        some (goodPending 18 17
          (execEvs assetRows25 (mount assetRows25 (some 18) 0 10)
            [FEvent.setPageSize 7, FEvent.fire, FEvent.fire, FEvent.fire]).pageSize)) :=
  page_size_change_recompute assetRows25 18 17 0 10
    [FEvent.setPageSize 7, FEvent.fire, FEvent.fire, FEvent.fire]
    (by decide) (by decide) (by decide)

/-- Helper: the scroll-and-highlight callback never issues a navigation. -/
theorem armNow_navs (s : CState) : (armNow s).navs = s.navs := by
  unfold armNow
  cases s.pending with
  | none => rfl
  | some p =>
    dsimp only [schedule]
    cases s.highlightTimer <;> rfl

/-- Helper: no fired callback issues a navigation. -/
theorem runTask_navs (rows : List Nat) (s : CState) (t : FTask) :
    (runTask rows s t).navs = s.navs := by
  cases t with
  | pageChange target =>
    show (if s.page = target then s
      else settleEffect (focusEffect rows { s with page := target })).navs = s.navs
    split
    · rfl
    · rw [(settleEffect_fields _).2.2.2.2, focusEffect_navs]
  | arm => exact armNow_navs s
  | clearHighlight => rfl

/-- Helper: no machine step issues a navigation. -/
theorem stepEv_navs (rows : List Nat) (s : CState) (e : FEvent) :
    (stepEv rows s e).navs = s.navs := by
  cases e with
  | fire =>
    show (match pickMin s.queue with
      | none => s
      | some (q, rest) =>
        runTask rows { s with queue := rest, now := max s.now q.due } q.task).navs = s.navs
    cases pickMin s.queue with
    | none => rfl
    | some qr =>
      obtain ⟨q, rest⟩ := qr
      exact runTask_navs rows _ q.task
  | setPageSize ps =>
    show (if s.pageSize = ps then s
      else focusEffect rows { s with pageSize := ps }).navs = s.navs
    split
    · rfl
    · exact focusEffect_navs rows _
  | setFocus g =>
    show (if s.focusId = g then s
      else focusEffect rows { s with focusId := g }).navs = s.navs
    split
    · rfl
    · exact focusEffect_navs rows _

/-- Helper: the focus coordinator issues no navigation along any run. -/
theorem execEvs_navs (rows : List Nat) (s : CState) (evs : List FEvent) :
    (execEvs rows s evs).navs = s.navs := by
  induction evs generalizing s with
  | nil => rfl
  | cons e evs ih => rw [execEvs, ih, stepEv_navs]

/-- Helper: mounting issues no navigation. -/
theorem mount_navs (rows : List Nat) (f : Option Nat) (page0 ps0 : Nat) :
    (mount rows f page0 ps0).navs = [] := by
  unfold mount
  rw [(settleEffect_fields _).2.2.2.2, focusEffect_navs]

/-- Helper: after deleting a key, reading it gives nothing. -/
theorem getParam_delete (ps : List (String × String)) (k : String) :
    getParam (deleteParam ps k) k = none := by
  induction ps with
  | nil => rfl
  | cons kv rest ih =>
    rw [deleteParam]
    by_cases h : kv.fst = k
    · rw [if_pos h]
      exact ih
    · rw [if_neg h, getParam, if_neg h]
      exact ih

/-- C9 counterexample: the claim fails for the focus parameter.  At this
concrete input — the Assets page mounted with focus id 1 over the
single-row filtered sequence [1] and the deferred callback fired — the
focus parameter is consumed (a scroll-and-highlight is performed), yet
the coordinator issues no URL-modifying navigation at all, so the
parameter is not stripped or replaced after being consumed: the focus and
settle effects of Assets.tsx contain no navigate call (only the
user-triggered clear-filters handler does), and the same holds for the
employee parameter. -/
theorem query_param_strip_counterexample :
    (execEvs [1] (mount [1] (some 1) 0 10) [FEvent.fire]).arms ≠ [] ∧
    (execEvs [1] (mount [1] (some 1) 0 10) [FEvent.fire]).navs = [] := by
  constructor
  · decide
  · decide

/-- C9 (amended): only the edit parameter is read once and then stripped
from the URL after being consumed — whenever the Tickets edit effect
consumes it, the replacement URL it navigates to (replace mode, tickets
path) no longer binds edit; the focus and employee parameters, by
contrast, are not stripped after consumption: the focus coordinator
issues no navigation along any run, so those parameters stay in the URL
until an explicit clear-filters navigation. -/
theorem query_param_consumption_amended (isAdmin : Bool) (editId : Option Nat)
    (tickets : List Nat) (params : List (String × String)) (row : Nat)
    (nav : NavAction)
    (h : ticketsEditEffect isAdmin editId tickets params = some (row, nav)) :
    (getParam nav.search "edit" = none ∧ nav.replace = true ∧
      nav.pathname = "/tickets") ∧
    (∀ (rows : List Nat) (f : Option Nat) (page0 ps0 : Nat) (evs : List FEvent),
      (execEvs rows (mount rows f page0 ps0) evs).navs = []) := by
  refine ⟨?_, ?_⟩
  · unfold ticketsEditEffect at h
    split at h
    · simp at h
    split at h
    · simp at h
    split at h
    · simp at h
    split at h
    · simp at h
    split at h
    · simp at h
    · simp only [Option.some.injEq, Prod.mk.injEq] at h
      obtain ⟨hrow, hnav⟩ := h
      subst hnav
      exact ⟨getParam_delete params "edit", rfl, rfl⟩
  · intro rows f page0 ps0 evs
    rw [execEvs_navs, mount_navs]

/-- Witness for query_param_consumption_amended: an admin consumes edit id 3
from a URL carrying both edit and focus parameters. -/
theorem query_param_consumption_amended_witness :
    (getParam (NavAction.mk "/tickets" (deleteParam [("edit", "3"), ("focus", "3")] "edit")
        true).search "edit" = none ∧
      (NavAction.mk "/tickets" (deleteParam [("edit", "3"), ("focus", "3")] "edit")
        true).replace = true ∧
      (NavAction.mk "/tickets" (deleteParam [("edit", "3"), ("focus", "3")] "edit")
        true).pathname = "/tickets") ∧
    (∀ (rows : List Nat) (f : Option Nat) (page0 ps0 : Nat) (evs : List FEvent),
      (execEvs rows (mount rows f page0 ps0) evs).navs = []) :=
  query_param_consumption_amended true (some 3) [3] [("edit", "3"), ("focus", "3")] 3
    (NavAction.mk "/tickets" (deleteParam [("edit", "3"), ("focus", "3")] "edit") true)
    (by decide)

/-- C10: the list-unwrapping helper is a total function that agrees with the
case analysis of the claim on every input: an array is returned as is, a
non-null object with an array results field yields that field, every
other input (null, undefined, primitives, objects without an array
results field) yields the empty list — callers always get a list and no
exception can arise. -/
theorem unwrapList_matches_case_analysis (data : JsVal) :
    unwrapList data = unwrapListSpec data := by
  cases data with
  | object fields =>
    cases h : getProp fields "results" <;>
      simp [unwrapList, unwrapListSpec, typeofObject, isNullVal, h]
  | _ => simp [unwrapList, unwrapListSpec, typeofObject, isNullVal]

end SmartAsset
